import Mathlib

/-!
Verification development for the Catefolio financial-transaction core:
the Fingerprint Engine (transaction/batch content signatures and duplicate
detection) and the Access-Scope Resolver (team read scope and team
lifecycle operations).
-/

/-- Modelled from the spec: a transaction record.  The source repository's
backend service code is not present; this follows the spec's data model
(§3): `{date, description, amount, category?, entity?, raw?}` plus the
`upload_id` attribution field of the Firestore schema.  Amounts are exact
signed decimals; we model them as scaled integers (minor units), never as
binary floats. -/
structure Txn where
  date : String
  description : String
  amount : Int
  category : Option String := none
  entity : Option String := none
  upload_id : Option String := none
  raw : List (String × String) := []
deriving DecidableEq

/-- Modelled from the spec: the cryptographic hash used for content
signatures.  Collision resistance is idealised as exact injectivity, so the
digest is modelled as an injective encoding of its input string. -/
def digest (s : String) : String := s

/-- The sort/identity key of a transaction: the `(date, description, amount)`
triple under the lexicographic order (date, then description, then amount). -/
def sigKey (t : Txn) : String ×ₗ String ×ₗ Int :=
  toLex (t.date, toLex (t.description, t.amount))

/-- Delimiter-joined encoding of a `(date, description, amount)` key. -/
def keySig (k : String ×ₗ String ×ₗ Int) : String :=
  (ofLex k).1 ++ "|" ++ (ofLex (ofLex k).2).1 ++ "|" ++ toString (ofLex (ofLex k).2).2

/-- Modelled from the spec (§4.1): `transaction_signature(txn)` is a
deterministic digest of exactly the `(date, description, amount)` triple. -/
def transaction_signature (t : Txn) : String :=
  digest (keySig (sigKey t))

/-- Modelled from the spec (§4.1): `batch_signature(transactions)` sorts the
per-transaction signatures by `(date, description, amount)` ascending and
digests the delimiter-joined sorted list. -/
def batch_signature (ts : List Txn) : String :=
  digest (String.intercalate ";" ((List.insertionSort (· ≤ ·) (ts.map sigKey)).map keySig))

/-- A stored upload batch as seen by the duplicate-batch check: its identity,
owner attribution, content signature, and whether it was already categorized. -/
structure StoredBatch where
  id : String
  owner_id : String
  signature : String
  categorized : Bool
deriving DecidableEq

/-- Result of the duplicate-batch check. -/
structure DupResult where
  duplicate : Bool
  batch_id : Option String
  was_categorized : Option Bool
deriving DecidableEq

/-- Modelled from the spec (§4.1): given a candidate batch signature and the
caller's visible owner-id set, report whether some stored batch under those
owners has an exactly equal signature, and if so which batch and whether it
was previously categorized. -/
def check_duplicate_batch (candidate : String) (owners : List String)
    (batches : List StoredBatch) : DupResult :=
  match batches.find? (fun b => decide (b.owner_id ∈ owners) && b.signature == candidate) with
  | some b => ⟨true, some b.id, some b.categorized⟩
  | none => ⟨false, none, none⟩

/-- Modelled from the spec (§4.1): one-pass partition of an incoming batch
against the set of signatures already on file — transactions whose signature
is unseen are kept for insert, the rest only counted as skipped. -/
def filter_new_transactions (incoming : List Txn) (existing : List String) :
    List Txn × Nat :=
  incoming.foldl
    (fun acc t =>
      if decide (transaction_signature t ∈ existing) then (acc.1, acc.2 + 1)
      else (acc.1 ++ [t], acc.2))
    ([], 0)

/-- Role of a team membership (source: `TeamRole` in `web/src/team/types.ts`). -/
inductive TeamRole
  | admin
  | member
deriving DecidableEq

/-- Status of a team membership (source: `TeamMembership.status` in
`web/src/team/types.ts`). -/
inductive MemStatus
  | active
  | pending
deriving DecidableEq

/-- A team membership record (source: `TeamMembership` in
`web/src/team/types.ts`; Firestore `team_memberships` schema of the plan). -/
structure TeamMembership where
  team_id : String
  user_id : String
  role : TeamRole
  status : MemStatus
  invited_by : Option String := none
deriving DecidableEq

/-- A team record (source: `Team` in `web/src/team/types.ts`). -/
structure Team where
  id : String
  name : String
  owner_id : String
  member_count : Nat
deriving DecidableEq

/-- A team invite record (source: `TeamInvite` in `web/src/team/types.ts`;
`max_uses = 0` means unlimited; `expires_at` is an absolute timestamp). -/
structure TeamInvite where
  code : String
  team_id : String
  created_by : String
  expires_at : Option Nat := none
  max_uses : Nat := 0
  use_count : Nat := 0
  is_active : Bool := true
deriving DecidableEq

/-- The stored team state: the document-store collections the Access-Scope
Resolver reads and the team lifecycle operations write. -/
structure TeamState where
  teams : List Team
  memberships : List TeamMembership
  invites : List TeamInvite
deriving DecidableEq

/-- Spec invariant (§3): a user has at most one active membership at a time
(any two active membership records of the same user coincide). -/
def uniqueActive (ms : List TeamMembership) : Prop :=
  ∀ m₁ ∈ ms, ∀ m₂ ∈ ms, m₁.status = MemStatus.active → m₂.status = MemStatus.active →
    m₁.user_id = m₂.user_id → m₁ = m₂

instance : DecidablePred uniqueActive := fun ms => by
  unfold uniqueActive; infer_instance

/-- Modelled from the spec (§4.2) and `get_data_scope_user_ids` of the team
feature plan: look up the caller's active membership; if none, solo scope
`[caller]`; if active, the current active-member-id set of that team. -/
def resolve_read_scope (ms : List TeamMembership) (caller : String) : List String :=
  match ms.find? (fun m => m.user_id == caller && m.status == MemStatus.active) with
  | none => [caller]
  | some m =>
      (ms.filter (fun x => x.team_id == m.team_id && x.status == MemStatus.active)).map
        (fun x => x.user_id)

/-- Distinct denial reasons for `join_team` (spec §4.2 failure semantics). -/
inductive JoinDeny
  | not_found
  | revoked
  | expired
  | exhausted
  | already_in_team
deriving DecidableEq

/-- Modelled from the spec (§4.2, §5): `join_team(code)` as one atomic
transactional step.  Validates the invite (exists, active, not expired,
under its use cap with `max_uses = 0` meaning unlimited, caller not already
in a team, team exists); on success increments `use_count`, creates an
active member-role membership with `invited_by = invite.created_by`, and
increments the team's `member_count`; on any failure it returns the
distinct denial reason and produces no state change. -/
def join_team (now : Nat) (caller code : String) (s : TeamState) :
    Except JoinDeny TeamState :=
  match s.invites.find? (fun i => i.code == code) with
  | none => .error .not_found
  | some inv =>
      if inv.is_active = false then .error .revoked
      else if (match inv.expires_at with | some e => decide (e ≤ now) | none => false) then
        .error .expired
      else if inv.max_uses ≠ 0 ∧ inv.max_uses ≤ inv.use_count then .error .exhausted
      else if s.memberships.any
          (fun m => m.user_id == caller && m.status == MemStatus.active) then
        .error .already_in_team
      else
        match s.teams.find? (fun t => t.id == inv.team_id) with
        | none => .error .not_found
        | some _ =>
            .ok
              { teams := s.teams.map (fun t =>
                  if t.id == inv.team_id then { t with member_count := t.member_count + 1 }
                  else t)
                memberships := s.memberships ++
                  [{ team_id := inv.team_id, user_id := caller, role := .member,
                     status := .active, invited_by := some inv.created_by }]
                invites := s.invites.map (fun i =>
                  if i.code == code then { i with use_count := i.use_count + 1 } else i) }

/-- Denial reasons for `leave_team` (spec §4.2). -/
inductive LeaveDeny
  | not_member
  | last_admin
deriving DecidableEq

/-- Modelled from the spec (§4.2): `leave_team` removes the caller's
membership and decrements `member_count`, guarded by the last-admin rule —
if the caller is the sole remaining admin of a team that still has other
active members, the operation is denied; when the caller was the last
active member the team is deleted (spec policy: a team never ends up
without admins while members remain, and an emptied team is removed). -/
def leave_team (caller : String) (s : TeamState) : Except LeaveDeny TeamState :=
  match s.memberships.find?
      (fun m => m.user_id == caller && m.status == MemStatus.active) with
  | none => .error .not_member
  | some m =>
      if m.role = TeamRole.admin ∧
          (s.memberships.filter (fun x => x.team_id == m.team_id &&
            x.status == MemStatus.active && x.user_id != caller)).filter
            (fun x => x.role == TeamRole.admin) = [] ∧
          s.memberships.filter (fun x => x.team_id == m.team_id &&
            x.status == MemStatus.active && x.user_id != caller) ≠ [] then
        .error .last_admin
      else
        if s.memberships.filter (fun x => x.team_id == m.team_id &&
            x.status == MemStatus.active && x.user_id != caller) = [] then
          .ok { teams := s.teams.filter (fun t => t.id != m.team_id)
                memberships := s.memberships.filter
                  (fun x => !(x.user_id == caller && x.team_id == m.team_id))
                invites := s.invites }
        else
          .ok { teams := s.teams.map (fun t =>
                  if t.id == m.team_id then { t with member_count := t.member_count - 1 }
                  else t)
                memberships := s.memberships.filter
                  (fun x => !(x.user_id == caller && x.team_id == m.team_id))
                invites := s.invites }

/-- Modelled from the spec (§4.2): `create_team` creates a team with
`member_count = 1` and an active admin membership for the creator; requires
the caller to have no active membership and the team id to be fresh. -/
def create_team (caller tid tname : String) (s : TeamState) : Option TeamState :=
  if s.memberships.any (fun m => m.user_id == caller && m.status == MemStatus.active) then
    none
  else if s.teams.any (fun t => t.id == tid) then none
  else
    some
      { teams := s.teams ++ [{ id := tid, name := tname, owner_id := caller, member_count := 1 }]
        memberships := s.memberships ++
          [{ team_id := tid, user_id := caller, role := .admin, status := .active,
             invited_by := none }]
        invites := s.invites }

/-- Modelled from the spec (§4.2): `create_invite` is admin-only; it adds a
fresh invite for the admin's team. -/
def create_invite (caller code : String) (maxUses : Nat) (expiresAt : Option Nat)
    (s : TeamState) : Option TeamState :=
  match s.memberships.find?
      (fun m => m.user_id == caller && m.status == MemStatus.active) with
  | none => none
  | some m =>
      if m.role = TeamRole.admin ∧ ¬ ∃ i ∈ s.invites, i.code = code then
        some { s with invites := s.invites ++
          [{ code := code, team_id := m.team_id, created_by := caller,
             expires_at := expiresAt, max_uses := maxUses, use_count := 0,
             is_active := true }] }
      else none

/-- The team-lifecycle operations of spec §4.2 as a single step alphabet. -/
inductive TeamOp
  | create (caller tid tname : String)
  | invite (caller code : String) (maxUses : Nat) (expiresAt : Option Nat)
  | join (now : Nat) (caller code : String)
  | leave (caller : String)

/-- One successful lifecycle step; failed operations change no state and
therefore induce no transition. -/
def applyOp : TeamOp → TeamState → Option TeamState
  | .create caller tid tname, s => create_team caller tid tname s
  | .invite caller code mu exp, s => create_invite caller code mu exp s
  | .join now caller code, s => (join_team now caller code s).toOption
  | .leave caller, s => (leave_team caller s).toOption

/-- The empty initial store. -/
def initialTeamState : TeamState := ⟨[], [], []⟩

/-- States reachable from the empty store by the team-lifecycle operations. -/
inductive ReachableTeamState : TeamState → Prop
  | init : ReachableTeamState initialTeamState
  | step {s s' : TeamState} (op : TeamOp) :
      ReachableTeamState s → applyOp op s = some s' → ReachableTeamState s'

/-- Whitespace test used by the JS `String.prototype.trim` (the forms that
occur in pasted invite input: space, tab, newline, carriage return). -/
def isSpaceChar (c : Char) : Bool :=
  c = ' ' ∨ c = '\t' ∨ c = '\n' ∨ c = '\r'

/-- Embedding of the JS `String.prototype.trim`: strips whitespace from both
ends of the string. -/
def trimStr (s : String) : String :=
  String.mk (((s.data.dropWhile isSpaceChar).reverse.dropWhile isSpaceChar).reverse)

/-- Embedding of the invite-URL regex of `handleJoinTeam` in
`web/src/team/TeamPage.tsx`: the pattern matches exactly when the string
ends in a path of the form `/join/<segment>` with a nonempty segment free of
further slashes, and captures that trailing segment (the maximal trailing
run of non-slash characters). -/
def matchJoinUrl (t : String) : Option String :=
  if (t.data.reverse.takeWhile (fun c => c ≠ '/')) = [] then none
  else if (t.data.reverse.drop
      (t.data.reverse.takeWhile (fun c => c ≠ '/')).length).take 6
      = ['/', 'n', 'i', 'o', 'j', '/'] then
    some (String.mk (t.data.reverse.takeWhile (fun c => c ≠ '/')).reverse)
  else none

/-- Embedding of `handleJoinTeam` in `web/src/team/TeamPage.tsx`: blank
input short-circuits with no join call; otherwise the trimmed input is
submitted, replaced by the trailing path segment when it parses as an
invite URL.  `some code` models the call `joinTeam(code)`; `none` models
the early return. -/
def handleJoinTeamCode (input : String) : Option String :=
  if trimStr input = "" then none
  else
    match matchJoinUrl (trimStr input) with
    | some code => some code
    | none => some (trimStr input)

/-- Auth mode of the api client (source: `AuthMode` in
`web/src/api/apiFetch.ts`). -/
inductive AuthMode
  | authenticated
  | demo
deriving DecidableEq

/-- Configuration of the api client (source: `ApiConfig` in
`web/src/api/apiFetch.ts`).  `getToken = some r` models a provided
`getToken` callback whose promise resolves to `r`, with `r = none`
modelling a `null` token; `getToken = none` models an absent callback. -/
structure ApiConfig where
  mode : AuthMode
  getToken : Option (Option String) := none
  demoUserId : Option String := none
deriving DecidableEq

/-- Caller-supplied request options (the `RequestInit` fields the client
passes through: method, body and headers). -/
structure RequestOptions where
  method : Option String := none
  body : Option String := none
  headers : List (String × String) := []
deriving DecidableEq

/-- Case normalisation of a header name (the `Headers` class treats names
case-insensitively), computed characterwise. -/
def lowerName (s : String) : String := String.mk (s.data.map Char.toLower)

/-- `Headers.set`: replaces any header of the same (case-insensitive) name
and appends the new pair. -/
def setHeader (hs : List (String × String)) (k v : String) :
    List (String × String) :=
  hs.filter (fun p => lowerName p.1 != lowerName k) ++ [(k, v)]

/-- `Headers.get`: first header whose name matches case-insensitively. -/
def getHeader (hs : List (String × String)) (k : String) : Option String :=
  (hs.find? (fun p => lowerName p.1 == lowerName k)).map (fun p => p.2)

/-- An issued network request: the url and final options handed to `fetch`. -/
structure ApiRequest where
  url : String
  options : RequestOptions
deriving DecidableEq

/-- Embedding of `createApiFetch` in `web/src/api/apiFetch.ts`: in
authenticated mode with a `getToken` callback, a falsy resolved token
(`null` or the empty string, per the JS `if (!token)` test) throws
`Not authenticated` before any request; a truthy token sets the
`Authorization: Bearer <token>` header.  In demo mode a truthy
`demoUserId` sets the `X-Demo-User-Id` header.  All other caller options
are passed through unchanged. -/
def createApiFetch (config : ApiConfig) (url : String) (options : RequestOptions) :
    Except String ApiRequest :=
  match config.mode, config.getToken with
  | .authenticated, some tokenRes =>
      match tokenRes with
      | none => .error "Not authenticated"
      | some t =>
          if t = "" then .error "Not authenticated"
          else
            .ok ⟨url, { options with
              headers := setHeader options.headers "Authorization" ("Bearer " ++ t) }⟩
  | .authenticated, none => .ok ⟨url, options⟩
  | .demo, _ =>
      match config.demoUserId with
      | some d =>
          if d = "" then .ok ⟨url, options⟩
          else
            .ok ⟨url, { options with
              headers := setHeader options.headers "X-Demo-User-Id" d }⟩
      | none => .ok ⟨url, options⟩

/-- Invite codes are unique identifiers (they are the invite document ids in
the `team_invites` collection): two invites sharing a code coincide. -/
def uniqueCodes (is : List TeamInvite) : Prop :=
  ∀ i₁ ∈ is, ∀ i₂ ∈ is, i₁.code = i₂.code → i₁ = i₂

instance : DecidablePred uniqueCodes := fun is => by
  unfold uniqueCodes; infer_instance

/-- The stored use count of the invite with the given code (0 when absent). -/
def inviteUseCount (s : TeamState) (code : String) : Nat :=
  match s.invites.find? (fun i => i.code == code) with
  | some i => i.use_count
  | none => 0

/-- Every stored team has at least one active admin membership. -/
def adminInvariant (s : TeamState) : Prop :=
  ∀ t ∈ s.teams, ∃ m ∈ s.memberships,
    m.team_id = t.id ∧ m.status = MemStatus.active ∧ m.role = TeamRole.admin

/-- The inductive team-store invariant: every team keeps an active admin, and
a user holds at most one active membership. -/
def teamStateInvariant (s : TeamState) : Prop :=
  adminInvariant s ∧ uniqueActive s.memberships

/-- Spec §8 scenario fixture: the `("2024-01-01","Coffee",-5.50)` transaction
(amount in minor units). -/
def coffeeTxn : Txn := { date := "2024-01-01", description := "Coffee", amount := -550 }

/-- Spec §8 scenario fixture: the `("2024-01-02","Salary",3000.00)` transaction
(amount in minor units). -/
def salaryTxn : Txn := { date := "2024-01-02", description := "Salary", amount := 300000 }

/-- The Coffee transaction as re-ingested later: same `(date, description,
amount)` triple, different category, entity and upload attribution. -/
def coffeeTxnTagged : Txn :=
  { coffeeTxn with category := some "Dining", entity := some "personal",
                   upload_id := some "upload-2", raw := [("memo", "cafe")] }

/-- Claim C7: `transaction_signature` is a pure deterministic function of
exactly the `(date, description, amount)` triple — two transactions agreeing
on the triple get equal digests regardless of category, entity, raw data or
upload attribution, amounts being exact decimals. -/
theorem C7_transaction_signature_triple_only (t₁ t₂ : Txn)
    (hdate : t₁.date = t₂.date) (hdesc : t₁.description = t₂.description)
    (hamt : t₁.amount = t₂.amount) :
    transaction_signature t₁ = transaction_signature t₂ := by
  simp [transaction_signature, sigKey, keySig, hdate, hdesc, hamt]

/-- Witness for C7: the freshly uploaded and the categorized Coffee
transaction differ in category, entity, upload and raw fields but share the
triple, hence share the signature. -/
theorem C7_transaction_signature_triple_only_witness :
    coffeeTxn.date = coffeeTxnTagged.date ∧
    coffeeTxn.description = coffeeTxnTagged.description ∧
    coffeeTxn.amount = coffeeTxnTagged.amount ∧
    coffeeTxn.category ≠ coffeeTxnTagged.category ∧
    transaction_signature coffeeTxn = transaction_signature coffeeTxnTagged :=
  ⟨rfl, rfl, rfl, by decide,
    C7_transaction_signature_triple_only coffeeTxn coffeeTxnTagged rfl rfl rfl⟩

/-- Claim C2: `batch_signature` is permutation-invariant — any two orderings
of the same multiset of transactions yield the identical digest, because the
per-transaction keys are sorted by the total order (date, description,
amount) before being joined and digested. -/
theorem C2_batch_signature_perm_invariant (l₁ l₂ : List Txn) (h : l₁.Perm l₂) :
    batch_signature l₁ = batch_signature l₂ := by
  unfold batch_signature
  have hk : (l₁.map sigKey).Perm (l₂.map sigKey) := h.map _
  have hsorted :
      List.insertionSort (· ≤ ·) (l₁.map sigKey)
        = List.insertionSort (· ≤ ·) (l₂.map sigKey) :=
    List.eq_of_perm_of_sorted
      ((List.perm_insertionSort _ _).trans (hk.trans (List.perm_insertionSort _ _).symm))
      (List.sorted_insertionSort _ _) (List.sorted_insertionSort _ _)
  rw [hsorted]

/-- Witness for C2: the two orderings of the spec §8 batch are a permutation
of each other and produce the same batch signature. -/
theorem C2_batch_signature_perm_invariant_witness :
    ([coffeeTxn, salaryTxn] : List Txn).Perm [salaryTxn, coffeeTxn] ∧
    batch_signature [coffeeTxn, salaryTxn] = batch_signature [salaryTxn, coffeeTxn] :=
  ⟨List.Perm.swap salaryTxn coffeeTxn [],
    C2_batch_signature_perm_invariant _ _ (List.Perm.swap salaryTxn coffeeTxn [])⟩

/-- Claim C3: `check_duplicate_batch` reports `duplicate = true` with the
matching stored batch's identity and prior categorization exactly when some
stored batch under the visible owners has an exactly equal signature, and
reports `duplicate = false` (with no identity) otherwise. -/
theorem C3_check_duplicate_batch_correct (candidate : String) (owners : List String)
    (batches : List StoredBatch) :
    ((∃ b ∈ batches, b.owner_id ∈ owners ∧ b.signature = candidate) →
        (check_duplicate_batch candidate owners batches).duplicate = true ∧
        ∃ b ∈ batches, b.owner_id ∈ owners ∧ b.signature = candidate ∧
          (check_duplicate_batch candidate owners batches).batch_id = some b.id ∧
          (check_duplicate_batch candidate owners batches).was_categorized
            = some b.categorized) ∧
    ((¬ ∃ b ∈ batches, b.owner_id ∈ owners ∧ b.signature = candidate) →
        check_duplicate_batch candidate owners batches = ⟨false, none, none⟩) := by
  cases hf : batches.find?
      (fun b => decide (b.owner_id ∈ owners) && b.signature == candidate) with
  | none =>
      have hnone := List.find?_eq_none.mp hf
      constructor
      · rintro ⟨b, hb, ho, hsig⟩
        have := hnone b hb
        simp [ho, hsig] at this
      · intro _
        simp [check_duplicate_batch, hf]
  | some b =>
      have hp := List.find?_some hf
      have hbm := List.mem_of_find?_eq_some hf
      simp only [Bool.and_eq_true, decide_eq_true_eq, beq_iff_eq] at hp
      constructor
      · intro _
        refine ⟨by simp [check_duplicate_batch, hf], b, hbm, hp.1, hp.2, ?_, ?_⟩ <;>
          simp [check_duplicate_batch, hf]
      · intro hn
        exact absurd ⟨b, hbm, hp.1, hp.2⟩ hn

/-- Witness for C3 (spec §8 scenario): batch A holding the Coffee and Salary
transactions is stored with its content signature; re-uploading the identical
set makes `check_duplicate_batch` report a duplicate with batch A's id. -/
theorem C3_check_duplicate_batch_correct_witness :
    (check_duplicate_batch (batch_signature [coffeeTxn, salaryTxn]) ["userA"]
        [⟨"batchA", "userA", batch_signature [coffeeTxn, salaryTxn], false⟩]).duplicate
      = true ∧
    (check_duplicate_batch (batch_signature [coffeeTxn, salaryTxn]) ["userA"]
        [⟨"batchA", "userA", batch_signature [coffeeTxn, salaryTxn], false⟩]).batch_id
      = some "batchA" :=
  have h := (C3_check_duplicate_batch_correct (batch_signature [coffeeTxn, salaryTxn])
      ["userA"] [⟨"batchA", "userA", batch_signature [coffeeTxn, salaryTxn], false⟩]).1
    ⟨⟨"batchA", "userA", batch_signature [coffeeTxn, salaryTxn], false⟩,
      by simp, by simp, rfl⟩
  ⟨h.1, by
    obtain ⟨-, b, hb, -, -, hid, -⟩ := h
    simp at hb
    rw [hid, hb]⟩

/-- Helper: the one-pass fold of `filter_new_transactions`, run from any
accumulator, appends the unseen transactions and adds the count of seen
ones. -/
theorem filter_new_foldl (existing : List String) (incoming : List Txn)
    (acc : List Txn × Nat) :
    incoming.foldl
        (fun acc t =>
          if decide (transaction_signature t ∈ existing) then (acc.1, acc.2 + 1)
          else (acc.1 ++ [t], acc.2))
        acc
      = (acc.1 ++ incoming.filter (fun t => !decide (transaction_signature t ∈ existing)),
         acc.2 + incoming.countP (fun t => decide (transaction_signature t ∈ existing))) := by
  induction incoming generalizing acc with
  | nil => simp
  | cons t ts ih =>
      rw [List.foldl_cons]
      by_cases h : transaction_signature t ∈ existing
      · rw [if_pos (by simpa using h), ih]
        simp [List.filter_cons, List.countP_cons, h]
        all_goals omega
      · rw [if_neg (by simpa using h), ih]
        simp [List.filter_cons, List.countP_cons, h]

/-- Claim C4: `filter_new_transactions` partitions the incoming batch into
`to_insert` (signature unseen among the existing signatures) and skipped
(signature already present), reporting the skipped count; the two parts
cover the batch, and a batch of one unseen and one seen transaction yields
`to_insert` of length 1 and skipped count 1. -/
theorem C4_filter_new_transactions_partition (incoming : List Txn)
    (existing : List String) (t₁ t₂ : Txn) :
    ((filter_new_transactions incoming existing).1
        = incoming.filter (fun t => !decide (transaction_signature t ∈ existing))) ∧
    ((filter_new_transactions incoming existing).2
        = incoming.countP (fun t => decide (transaction_signature t ∈ existing))) ∧
    ((filter_new_transactions incoming existing).1.length
        + (filter_new_transactions incoming existing).2 = incoming.length) ∧
    (transaction_signature t₁ ∉ existing → transaction_signature t₂ ∈ existing →
        (filter_new_transactions [t₁, t₂] existing).1 = [t₁] ∧
        (filter_new_transactions [t₁, t₂] existing).2 = 1) := by
  have h := filter_new_foldl existing incoming ([], 0)
  have h1 : (filter_new_transactions incoming existing).1
      = incoming.filter (fun t => !decide (transaction_signature t ∈ existing)) := by
    unfold filter_new_transactions
    rw [h]
    simp
  have h2 : (filter_new_transactions incoming existing).2
      = incoming.countP (fun t => decide (transaction_signature t ∈ existing)) := by
    unfold filter_new_transactions
    rw [h]
    simp
  refine ⟨h1, h2, ?_, ?_⟩
  · have key : ∀ l : List Txn,
        (l.filter (fun t => !decide (transaction_signature t ∈ existing))).length
          + l.countP (fun t => decide (transaction_signature t ∈ existing)) = l.length := by
      intro l
      induction l with
      | nil => simp
      | cons a as ih =>
          by_cases ha : transaction_signature a ∈ existing <;>
            simp [List.filter_cons, List.countP_cons, ha] <;> omega
  
    rw [h1, h2, key]
  · intro ht₁ ht₂
    unfold filter_new_transactions
    simp [ht₁, ht₂]

/-- Witness for C4 (spec §8 scenario): with the Salary signature already on
file, a batch of the unseen Coffee transaction and the seen Salary
transaction yields `to_insert = [coffee]` and skipped count 1. -/
theorem C4_filter_new_transactions_partition_witness :
    (filter_new_transactions [coffeeTxn, salaryTxn]
        [transaction_signature salaryTxn]).1 = [coffeeTxn] ∧
    (filter_new_transactions [coffeeTxn, salaryTxn]
        [transaction_signature salaryTxn]).2 = 1 :=
  (C4_filter_new_transactions_partition [coffeeTxn, salaryTxn]
      [transaction_signature salaryTxn] coffeeTxn salaryTxn).2.2.2
    (by decide) (by decide)

/-- Helper: with at most one active membership per user, looking up the
caller's active membership returns any given active membership record of
that caller. -/
theorem find_active_eq (ms : List TeamMembership) (m₀ : TeamMembership) (caller : String)
    (hm : m₀ ∈ ms) (hu : m₀.user_id = caller) (hs : m₀.status = MemStatus.active)
    (huniq : uniqueActive ms) :
    ms.find? (fun m => m.user_id == caller && m.status == MemStatus.active) = some m₀ := by
  cases hf : ms.find? (fun m => m.user_id == caller && m.status == MemStatus.active) with
  | none =>
      have h := List.find?_eq_none.mp hf m₀ hm
      simp [hu, hs] at h
  | some m =>
      have hp := List.find?_some hf
      have hmm := List.mem_of_find?_eq_some hf
      simp only [Bool.and_eq_true, beq_iff_eq] at hp
      rw [huniq m hmm m₀ hm hp.2 hs (hp.1.trans hu.symm)]

/-- Claim C1: `resolve_read_scope` returns exactly `[caller]` when the caller
has no active membership; with an active membership it returns the full
current active-member-id set of that membership's team — a set containing
the caller and no user id outside that team. -/
theorem C1_resolve_read_scope_correct (ms : List TeamMembership) (caller : String) :
    ((∀ m ∈ ms, ¬(m.user_id = caller ∧ m.status = MemStatus.active)) →
        resolve_read_scope ms caller = [caller]) ∧
    (∀ m₀ ∈ ms, m₀.user_id = caller → m₀.status = MemStatus.active → uniqueActive ms →
        caller ∈ resolve_read_scope ms caller ∧
        (∀ u ∈ resolve_read_scope ms caller, ∃ x ∈ ms,
            x.user_id = u ∧ x.status = MemStatus.active ∧ x.team_id = m₀.team_id) ∧
        (∀ x ∈ ms, x.status = MemStatus.active → x.team_id = m₀.team_id →
            x.user_id ∈ resolve_read_scope ms caller)) := by
  constructor
  · intro hnone
    have hf : ms.find? (fun m => m.user_id == caller && m.status == MemStatus.active)
        = none := by
      rw [List.find?_eq_none]
      intro m hm
      have := hnone m hm
      simp only [Bool.and_eq_true, beq_iff_eq]
      exact fun h => this ⟨h.1, h.2⟩
    simp [resolve_read_scope, hf]
  · intro m₀ hm₀ hu hs huniq
    have hf := find_active_eq ms m₀ caller hm₀ hu hs huniq
    refine ⟨?_, ?_, ?_⟩
    · simp only [resolve_read_scope, hf, List.mem_map]
      exact ⟨m₀, by simp [List.mem_filter, hm₀, hs], hu⟩
    · intro u hmem
      simp only [resolve_read_scope, hf, List.mem_map, List.mem_filter,
        Bool.and_eq_true, beq_iff_eq] at hmem
      obtain ⟨x, ⟨hx, hteam, hst⟩, hux⟩ := hmem
      exact ⟨x, hx, hux, hst, hteam⟩
    · intro x hx hst hteam
      simp only [resolve_read_scope, hf, List.mem_map, List.mem_filter,
        Bool.and_eq_true, beq_iff_eq]
      exact ⟨x, ⟨hx, hteam, hst⟩, rfl⟩

/-- Witness for C1: in a store holding team T1 (alice admin, bob member) and
team T2 (carol), alice's scope contains alice and bob, while dave — having
no membership — gets exactly the solo scope. -/
theorem C1_resolve_read_scope_correct_witness :
    "alice" ∈ resolve_read_scope
        [⟨"T1", "alice", .admin, .active, none⟩,
         ⟨"T1", "bob", .member, .active, some "alice"⟩,
         ⟨"T2", "carol", .admin, .active, none⟩] "alice" ∧
    "bob" ∈ resolve_read_scope
        [⟨"T1", "alice", .admin, .active, none⟩,
         ⟨"T1", "bob", .member, .active, some "alice"⟩,
         ⟨"T2", "carol", .admin, .active, none⟩] "alice" ∧
    resolve_read_scope
        [⟨"T1", "alice", .admin, .active, none⟩,
         ⟨"T1", "bob", .member, .active, some "alice"⟩,
         ⟨"T2", "carol", .admin, .active, none⟩] "dave" = ["dave"] := by
  refine ⟨?_, ?_, ?_⟩
  · exact ((C1_resolve_read_scope_correct _ "alice").2
      ⟨"T1", "alice", .admin, .active, none⟩ (by decide) rfl rfl (by decide)).1
  · exact ((C1_resolve_read_scope_correct _ "alice").2
      ⟨"T1", "alice", .admin, .active, none⟩ (by decide) rfl rfl (by decide)).2.2
      ⟨"T1", "bob", .member, .active, some "alice"⟩ (by decide) rfl rfl
  · exact (C1_resolve_read_scope_correct _ "dave").1 (by decide)

/-- Helper: with unique codes, the invite lookup returns the given invite. -/
theorem find_code_eq (is : List TeamInvite) (inv : TeamInvite) (code : String)
    (hm : inv ∈ is) (hc : inv.code = code) (huniq : uniqueCodes is) :
    is.find? (fun i => i.code == code) = some inv := by
  cases hf : is.find? (fun i => i.code == code) with
  | none =>
      have h := List.find?_eq_none.mp hf inv hm
      simp [hc] at h
  | some j =>
      have hp := List.find?_some hf
      have hjm := List.mem_of_find?_eq_some hf
      simp only [beq_iff_eq] at hp
      rw [huniq j hjm inv hm (hp.trans hc.symm)]

/-- Helper: looking up a code after the use-count bump of that code finds
the bumped invite. -/
theorem find_bump (is : List TeamInvite) (code : String) :
    (is.map (fun i =>
        if i.code == code then { i with use_count := i.use_count + 1 } else i)).find?
        (fun i => i.code == code)
      = (is.find? (fun i => i.code == code)).map
          (fun i => { i with use_count := i.use_count + 1 }) := by
  induction is with
  | nil => rfl
  | cons i is ih =>
      rw [List.map_cons]
      by_cases h : i.code = code
      · rw [if_pos (by simpa using h)]
        rw [List.find?_cons_of_pos _ (by simpa using h),
          List.find?_cons_of_pos _ (by simpa using h)]
        rfl
      · rw [if_neg (by simpa using h)]
        rw [List.find?_cons_of_neg _ (by simpa using h),
          List.find?_cons_of_neg _ (by simpa using h)]
        exact ih

/-- Helper: a fully valid join — existing invite with unique code, active,
unexpired, under its cap, teamless caller, existing team — succeeds and
produces exactly the incremented state. -/
theorem join_team_ok (now : Nat) (caller code : String) (s : TeamState)
    (inv : TeamInvite) (hm : inv ∈ s.invites) (hc : inv.code = code)
    (huniq : uniqueCodes s.invites)
    (hact : inv.is_active = true)
    (hexp : ∀ e, inv.expires_at = some e → now < e)
    (hcap : inv.max_uses = 0 ∨ inv.use_count < inv.max_uses)
    (hfree : ∀ m ∈ s.memberships, ¬(m.user_id = caller ∧ m.status = MemStatus.active))
    (tm : Team) (htm : tm ∈ s.teams) (hti : tm.id = inv.team_id) :
    join_team now caller code s = .ok
      { teams := s.teams.map (fun t =>
          if t.id == inv.team_id then { t with member_count := t.member_count + 1 }
          else t)
        memberships := s.memberships ++
          [{ team_id := inv.team_id, user_id := caller, role := .member,
             status := .active, invited_by := some inv.created_by }]
        invites := s.invites.map (fun i =>
          if i.code == code then { i with use_count := i.use_count + 1 } else i) } := by
  have h2 : (match inv.expires_at with
      | some e => decide (e ≤ now) | none => false) = false := by
    cases he : inv.expires_at with
    | none => rfl
    | some e => exact decide_eq_false (Nat.not_le.mpr (hexp e he))
  have h3 : ¬(inv.max_uses ≠ 0 ∧ inv.max_uses ≤ inv.use_count) := by
    rcases hcap with h | h
    · exact fun hh => hh.1 h
    · exact fun hh => absurd hh.2 (Nat.not_le.mpr h)
  have h4 : s.memberships.any
      (fun m => m.user_id == caller && m.status == MemStatus.active) = false := by
    rw [List.any_eq_false]
    intro m hm'
    have h := hfree m hm'
    simp only [Bool.and_eq_true, beq_iff_eq]
    exact fun hh => h ⟨hh.1, hh.2⟩
  cases hft : s.teams.find? (fun t => t.id == inv.team_id) with
  | none =>
      have h := List.find?_eq_none.mp hft tm htm
      simp [hti] at h
  | some tm' =>
      simp [join_team, find_code_eq s.invites inv code hm hc huniq, hact, h2, h3, h4, hft]

/-- Claim C5: `join_team(code)` succeeds only on an active, unexpired invite
under its use cap (`max_uses = 0` meaning unlimited), and on success
increments `use_count`, creates an active member-role membership invited by
the invite's creator, and increments the team's `member_count`; an unknown,
revoked, expired or exhausted invite is denied with the corresponding
distinct reason and, the operation being functional, no state change is
produced. -/
theorem C5_join_team_validation (now : Nat) (caller code : String) (s : TeamState)
    (inv : TeamInvite) :
    (inv ∈ s.invites → inv.code = code → uniqueCodes s.invites →
      inv.is_active = true → (∀ e, inv.expires_at = some e → now < e) →
      (inv.max_uses = 0 ∨ inv.use_count < inv.max_uses) →
      (∀ m ∈ s.memberships, ¬(m.user_id = caller ∧ m.status = MemStatus.active)) →
      ∀ tm ∈ s.teams, tm.id = inv.team_id →
      ∃ s', join_team now caller code s = .ok s' ∧
        ({ team_id := inv.team_id, user_id := caller, role := .member,
           status := .active, invited_by := some inv.created_by } : TeamMembership)
          ∈ s'.memberships ∧
        inviteUseCount s' code = inv.use_count + 1 ∧
        (∀ t ∈ s.teams, t.id = inv.team_id →
          ({ t with member_count := t.member_count + 1 } : Team) ∈ s'.teams)) ∧
    ((∀ i ∈ s.invites, i.code ≠ code) →
      join_team now caller code s = .error .not_found) ∧
    (inv ∈ s.invites → inv.code = code → uniqueCodes s.invites →
      inv.is_active = false → join_team now caller code s = .error .revoked) ∧
    (inv ∈ s.invites → inv.code = code → uniqueCodes s.invites →
      inv.is_active = true → ∀ e, inv.expires_at = some e → e ≤ now →
      join_team now caller code s = .error .expired) ∧
    (inv ∈ s.invites → inv.code = code → uniqueCodes s.invites →
      inv.is_active = true → (∀ e, inv.expires_at = some e → now < e) →
      inv.max_uses ≠ 0 → inv.max_uses ≤ inv.use_count →
      join_team now caller code s = .error .exhausted) := by
  refine ⟨?_, ?_, ?_, ?_, ?_⟩
  · intro hm hc huniq hact hexp hcap hfree tm htm hti
    refine ⟨_, join_team_ok now caller code s inv hm hc huniq hact hexp hcap hfree
      tm htm hti, ?_, ?_, ?_⟩
    · simp
    · unfold inviteUseCount
      rw [find_bump, find_code_eq s.invites inv code hm hc huniq]
      rfl
    · intro t ht htid
      exact List.mem_map.mpr ⟨t, ht, by simp [htid]⟩
  · intro hnone
    have hf : s.invites.find? (fun i => i.code == code) = none := by
      rw [List.find?_eq_none]
      intro i hi
      simpa using hnone i hi
    simp [join_team, hf]
  · intro hm hc huniq hact
    simp [join_team, find_code_eq s.invites inv code hm hc huniq, hact]
  · intro hm hc huniq hact e he hle
    have h2 : (match inv.expires_at with
        | some e => decide (e ≤ now) | none => false) = true := by
      rw [he]
      exact decide_eq_true hle
    simp [join_team, find_code_eq s.invites inv code hm hc huniq, hact, h2]
  · intro hm hc huniq hact hexp hmu hcap
    have h2 : (match inv.expires_at with
        | some e => decide (e ≤ now) | none => false) = false := by
      cases he : inv.expires_at with
      | none => rfl
      | some e => exact decide_eq_false (Nat.not_le.mpr (hexp e he))
    simp [join_team, find_code_eq s.invites inv code hm hc huniq, hact, h2, hmu, hcap]

/-- Witness for C5: a valid invite admits bob; an invite at its one-use cap
denies with `exhausted` (spec §8 third scenario); a deactivated invite
denies with `revoked`; a past-expiry invite denies with `expired`; an
unknown code denies with `not_found`. -/
theorem C5_join_team_validation_witness :
    (join_team 0 "bob" "inv1"
        ⟨[⟨"T1", "Finance", "alice", 1⟩],
         [⟨"T1", "alice", .admin, .active, none⟩],
         [⟨"inv1", "T1", "alice", none, 1, 0, true⟩]⟩).toOption.isSome = true ∧
    join_team 0 "carol" "inv1"
        ⟨[⟨"T1", "Finance", "alice", 2⟩],
         [⟨"T1", "alice", .admin, .active, none⟩],
         [⟨"inv1", "T1", "alice", none, 1, 1, true⟩]⟩ = .error .exhausted ∧
    join_team 0 "carol" "inv2"
        ⟨[], [], [⟨"inv2", "T1", "alice", none, 0, 0, false⟩]⟩ = .error .revoked ∧
    join_team 10 "carol" "inv3"
        ⟨[], [], [⟨"inv3", "T1", "alice", some 5, 0, 0, true⟩]⟩ = .error .expired ∧
    join_team 0 "carol" "nope"
        ⟨[], [], [⟨"inv1", "T1", "alice", none, 1, 0, true⟩]⟩ = .error .not_found := by
  refine ⟨?_, ?_, ?_, ?_, ?_⟩
  · obtain ⟨s', h, -⟩ := (C5_join_team_validation 0 "bob" "inv1"
        ⟨[⟨"T1", "Finance", "alice", 1⟩],
         [⟨"T1", "alice", .admin, .active, none⟩],
         [⟨"inv1", "T1", "alice", none, 1, 0, true⟩]⟩
        ⟨"inv1", "T1", "alice", none, 1, 0, true⟩).1
      (by decide) rfl (by decide) rfl (fun e he => nomatch he) (by decide) (by decide)
      ⟨"T1", "Finance", "alice", 1⟩ (by decide) rfl
    rw [h]
    rfl
  · exact (C5_join_team_validation 0 "carol" "inv1"
        ⟨[⟨"T1", "Finance", "alice", 2⟩],
         [⟨"T1", "alice", .admin, .active, none⟩],
         [⟨"inv1", "T1", "alice", none, 1, 1, true⟩]⟩
        ⟨"inv1", "T1", "alice", none, 1, 1, true⟩).2.2.2.2
      (by decide) rfl (by decide) rfl (fun e he => nomatch he) (by decide) (by decide)
  · exact (C5_join_team_validation 0 "carol" "inv2"
        ⟨[], [], [⟨"inv2", "T1", "alice", none, 0, 0, false⟩]⟩
        ⟨"inv2", "T1", "alice", none, 0, 0, false⟩).2.2.1
      (by decide) rfl (by decide) rfl
  · exact (C5_join_team_validation 10 "carol" "inv3"
        ⟨[], [], [⟨"inv3", "T1", "alice", some 5, 0, 0, true⟩]⟩
        ⟨"inv3", "T1", "alice", some 5, 0, 0, true⟩).2.2.2.1
      (by decide) rfl (by decide) rfl 5 rfl (by decide)
  · exact (C5_join_team_validation 0 "carol" "nope"
        ⟨[], [], [⟨"inv1", "T1", "alice", none, 1, 0, true⟩]⟩
        ⟨"inv1", "T1", "alice", none, 1, 0, true⟩).2.1 (by decide)

/-- Helper: when the looked-up invite is active and unexpired but at or past
its nonzero use cap, the join is denied `exhausted`. -/
theorem join_team_exhausted_of_find (now : Nat) (caller code : String) (s : TeamState)
    (inv : TeamInvite)
    (hfind : s.invites.find? (fun i => i.code == code) = some inv)
    (hact : inv.is_active = true)
    (hexp : (match inv.expires_at with | some e => decide (e ≤ now) | none => false) = false)
    (hmu : inv.max_uses ≠ 0) (hcap : inv.max_uses ≤ inv.use_count) :
    join_team now caller code s = .error .exhausted := by
  simp [join_team, hfind, hact, hexp, hmu, hcap]

/-- Claim C8: against an invite with `max_uses = 1` and `use_count = 0`, two
joins executed as atomic conditional transactions in either interleaving
leave `use_count` at exactly 1 and let exactly one joiner through: the
first join succeeds, and on the resulting state the second join — by any
caller — is denied `exhausted`. -/
theorem C8_invite_race_cap (now : Nat) (a b code : String) (s : TeamState)
    (inv : TeamInvite)
    (hm : inv ∈ s.invites) (hc : inv.code = code) (huniq : uniqueCodes s.invites)
    (hact : inv.is_active = true)
    (hexp : ∀ e, inv.expires_at = some e → now < e)
    (hmu : inv.max_uses = 1) (huc : inv.use_count = 0)
    (hfa : ∀ m ∈ s.memberships, ¬(m.user_id = a ∧ m.status = MemStatus.active))
    (tm : Team) (htm : tm ∈ s.teams) (hti : tm.id = inv.team_id) :
    (∃ s₁, join_team now a code s = .ok s₁) ∧
    (∀ s₁, join_team now a code s = .ok s₁ →
      inviteUseCount s₁ code = 1 ∧ join_team now b code s₁ = .error .exhausted) := by
  have hcap : inv.max_uses = 0 ∨ inv.use_count < inv.max_uses := by omega
  have h1 := join_team_ok now a code s inv hm hc huniq hact hexp hcap hfa tm htm hti
  refine ⟨⟨_, h1⟩, ?_⟩
  intro s₁ hok
  rw [h1] at hok
  obtain rfl : _ = s₁ := by injection hok
  have hfind : (s.invites.map (fun i =>
      if i.code == code then { i with use_count := i.use_count + 1 } else i)).find?
      (fun i => i.code == code) = some { inv with use_count := inv.use_count + 1 } := by
    rw [find_bump, find_code_eq s.invites inv code hm hc huniq]
    rfl
  constructor
  · unfold inviteUseCount
    rw [hfind]
    simp [huc]
  · have h2 : (match ({ inv with use_count := inv.use_count + 1 } : TeamInvite).expires_at
        with | some e => decide (e ≤ now) | none => false) = false := by
      cases he : inv.expires_at with
      | none => rfl
      | some e => exact decide_eq_false (Nat.not_le.mpr (hexp e he))
    refine join_team_exhausted_of_find now b code _
      { inv with use_count := inv.use_count + 1 } hfind hact h2 ?_ ?_
    · simp [hmu]
    · simp [hmu, huc]

/-- Witness for C8: bob and carol race for the single-use invite; bob's
transactional join lands first and succeeds, the stored use count is exactly
1, and carol's join on the resulting state is denied `exhausted`. -/
theorem C8_invite_race_cap_witness :
    (join_team 0 "bob" "inv1"
        ⟨[⟨"T1", "Finance", "alice", 1⟩],
         [⟨"T1", "alice", .admin, .active, none⟩],
         [⟨"inv1", "T1", "alice", none, 1, 0, true⟩]⟩).toOption.isSome = true ∧
    inviteUseCount
        ⟨[⟨"T1", "Finance", "alice", 2⟩],
         [⟨"T1", "alice", .admin, .active, none⟩,
          ⟨"T1", "bob", .member, .active, some "alice"⟩],
         [⟨"inv1", "T1", "alice", none, 1, 1, true⟩]⟩ "inv1" = 1 ∧
    join_team 0 "carol" "inv1"
        ⟨[⟨"T1", "Finance", "alice", 2⟩],
         [⟨"T1", "alice", .admin, .active, none⟩,
          ⟨"T1", "bob", .member, .active, some "alice"⟩],
         [⟨"inv1", "T1", "alice", none, 1, 1, true⟩]⟩ = .error .exhausted := by
  have h := C8_invite_race_cap 0 "bob" "carol" "inv1"
      ⟨[⟨"T1", "Finance", "alice", 1⟩],
       [⟨"T1", "alice", .admin, .active, none⟩],
       [⟨"inv1", "T1", "alice", none, 1, 0, true⟩]⟩
      ⟨"inv1", "T1", "alice", none, 1, 0, true⟩
      (by decide) rfl (by decide) rfl (fun e he => nomatch he) rfl rfl (by decide)
      ⟨"T1", "Finance", "alice", 1⟩ (by decide) rfl
  refine ⟨?_, ?_, ?_⟩
  · obtain ⟨s₁, h1⟩ := h.1
    rw [h1]
    rfl
  · exact (h.2
      ⟨[⟨"T1", "Finance", "alice", 2⟩],
       [⟨"T1", "alice", .admin, .active, none⟩,
        ⟨"T1", "bob", .member, .active, some "alice"⟩],
       [⟨"inv1", "T1", "alice", none, 1, 1, true⟩]⟩ rfl).1
  · exact (h.2
      ⟨[⟨"T1", "Finance", "alice", 2⟩],
       [⟨"T1", "alice", .admin, .active, none⟩,
        ⟨"T1", "bob", .member, .active, some "alice"⟩],
       [⟨"inv1", "T1", "alice", none, 1, 1, true⟩]⟩ rfl).2

/-- Helper: a successful `create_team` appends the team and its creator's
admin membership, and the creator was teamless. -/
theorem create_team_ok_shape (caller tid tname : String) (s s' : TeamState)
    (h : create_team caller tid tname s = some s') :
    s'.teams = s.teams
      ++ [{ id := tid, name := tname, owner_id := caller, member_count := 1 }] ∧
    s'.memberships = s.memberships
      ++ [{ team_id := tid, user_id := caller, role := .admin,
            status := .active, invited_by := none }] ∧
    (∀ m ∈ s.memberships, ¬(m.user_id = caller ∧ m.status = MemStatus.active)) := by
  unfold create_team at h
  split_ifs at h with h1 h2
  injection h with h
  subst h
  refine ⟨rfl, rfl, ?_⟩
  intro m hm hcontra
  exact h1 (List.any_eq_true.mpr ⟨m, hm, by simp [hcontra.1, hcontra.2]⟩)

/-- Helper: `create_team` preserves the team-store invariant. -/
theorem create_team_preserves (caller tid tname : String) (s s' : TeamState)
    (h : create_team caller tid tname s = some s') (hinv : teamStateInvariant s) :
    teamStateInvariant s' := by
  obtain ⟨hteams, hmem, hfree⟩ := create_team_ok_shape caller tid tname s s' h
  constructor
  · intro t ht
    rw [hteams] at ht
    rcases List.mem_append.mp ht with htold | htnew
    · obtain ⟨m, hm, hp⟩ := hinv.1 t htold
      exact ⟨m, by rw [hmem]; exact List.mem_append_left _ hm, hp⟩
    · have htnew' : t = { id := tid, name := tname, owner_id := caller, member_count := 1 } := by
        simpa using htnew
      exact ⟨{ team_id := tid, user_id := caller, role := .admin, status := .active, invited_by := none },
        by rw [hmem]; simp, by simp [htnew']⟩
  · intro m₁ hm₁ m₂ hm₂ ha₁ ha₂ hu
    rw [hmem] at hm₁ hm₂
    rcases List.mem_append.mp hm₁ with h₁ | h₁ <;>
      rcases List.mem_append.mp hm₂ with h₂ | h₂
    · exact hinv.2 m₁ h₁ m₂ h₂ ha₁ ha₂ hu
    · simp at h₂
      exact absurd ⟨by rw [hu, h₂], ha₁⟩ (hfree m₁ h₁)
    · simp at h₁
      exact absurd ⟨by rw [← hu, h₁], ha₂⟩ (hfree m₂ h₂)
    · simp at h₁ h₂
      rw [h₁, h₂]

/-- Helper: `create_invite` preserves the team-store invariant (it touches
only the invites collection). -/
theorem create_invite_preserves (caller code : String) (mu : Nat)
    (exp : Option Nat) (s s' : TeamState)
    (h : create_invite caller code mu exp s = some s') (hinv : teamStateInvariant s) :
    teamStateInvariant s' := by
  unfold create_invite at h
  revert h
  cases hfind : s.memberships.find?
      (fun m => m.user_id == caller && m.status == MemStatus.active) with
  | none => intro h; exact absurd h (by simp)
  | some m =>
      intro h
      rw [show (match some m with
          | none => (none : Option TeamState)
          | some m =>
            if m.role = TeamRole.admin ∧ ¬ ∃ i ∈ s.invites, i.code = code then
              some { s with invites := s.invites ++
                [{ code := code, team_id := m.team_id, created_by := caller,
                   expires_at := exp, max_uses := mu, use_count := 0,
                   is_active := true }] }
            else none)
          = if m.role = TeamRole.admin ∧ ¬ ∃ i ∈ s.invites, i.code = code then
              some { s with invites := s.invites ++
                [{ code := code, team_id := m.team_id, created_by := caller,
                   expires_at := exp, max_uses := mu, use_count := 0,
                   is_active := true }] }
            else none from rfl] at h
      split_ifs at h with h1
      injection h with h
      subst h
      exact hinv

/-- Helper: a successful `join_team` bumps one team's member count, appends
the joiner's member-role membership, and the joiner was teamless. -/
theorem join_team_ok_shape (now : Nat) (caller code : String) (s s' : TeamState)
    (h : join_team now caller code s = .ok s') :
    ∃ tid crb,
      s'.teams = s.teams.map (fun t =>
        if t.id == tid then { t with member_count := t.member_count + 1 } else t) ∧
      s'.memberships = s.memberships
        ++ [{ team_id := tid, user_id := caller, role := .member,
              status := .active, invited_by := some crb }] ∧
      (∀ m ∈ s.memberships, ¬(m.user_id = caller ∧ m.status = MemStatus.active)) := by
  unfold join_team at h
  split at h
  · exact absurd h (by simp)
  · rename_i inv hfind
    split_ifs at h with h1 h2 h3 h4
    split at h
    · exact Except.noConfusion h
    · injection h with h
      subst h
      refine ⟨inv.team_id, inv.created_by, rfl, rfl, ?_⟩
      intro m hm hcontra
      exact h4 (List.any_eq_true.mpr ⟨m, hm, by simp [hcontra.1, hcontra.2]⟩)

/-- Helper: `join_team` preserves the team-store invariant. -/
theorem join_team_preserves (now : Nat) (caller code : String) (s s' : TeamState)
    (h : join_team now caller code s = .ok s') (hinv : teamStateInvariant s) :
    teamStateInvariant s' := by
  obtain ⟨tid, crb, hteams, hmem, hfree⟩ := join_team_ok_shape now caller code s s' h
  constructor
  · intro t ht
    rw [hteams] at ht
    obtain ⟨t₀, ht₀, rfl⟩ := List.mem_map.mp ht
    obtain ⟨m, hm, hp1, hp2, hp3⟩ := hinv.1 t₀ ht₀
    refine ⟨m, by rw [hmem]; exact List.mem_append_left _ hm, ?_, hp2, hp3⟩
    by_cases hid : t₀.id = tid <;> simp [hid, hp1]
  · intro m₁ hm₁ m₂ hm₂ ha₁ ha₂ hu
    rw [hmem] at hm₁ hm₂
    rcases List.mem_append.mp hm₁ with h₁ | h₁ <;>
      rcases List.mem_append.mp hm₂ with h₂ | h₂
    · exact hinv.2 m₁ h₁ m₂ h₂ ha₁ ha₂ hu
    · simp only [List.mem_singleton] at h₂
      exact absurd ⟨by rw [hu, h₂], ha₁⟩ (hfree m₁ h₁)
    · simp only [List.mem_singleton] at h₁
      exact absurd ⟨by rw [← hu, h₁], ha₂⟩ (hfree m₂ h₂)
    · simp only [List.mem_singleton] at h₁ h₂
      rw [h₁, h₂]

/-- Helper: a successful `leave_team` found the caller's active membership,
was not blocked by the last-admin guard, removed the caller's membership of
that team, and either deleted the emptied team or decremented its count. -/
theorem leave_team_ok_shape (caller : String) (s s' : TeamState)
    (h : leave_team caller s = .ok s') :
    ∃ m, s.memberships.find?
        (fun x => x.user_id == caller && x.status == MemStatus.active) = some m ∧
      ¬(m.role = TeamRole.admin ∧
        (s.memberships.filter (fun x => x.team_id == m.team_id &&
          x.status == MemStatus.active && x.user_id != caller)).filter
          (fun x => x.role == TeamRole.admin) = [] ∧
        s.memberships.filter (fun x => x.team_id == m.team_id &&
          x.status == MemStatus.active && x.user_id != caller) ≠ []) ∧
      s'.memberships = s.memberships.filter
        (fun x => !(x.user_id == caller && x.team_id == m.team_id)) ∧
      ((s.memberships.filter (fun x => x.team_id == m.team_id &&
          x.status == MemStatus.active && x.user_id != caller) = [] ∧
        s'.teams = s.teams.filter (fun t => t.id != m.team_id)) ∨
       (s.memberships.filter (fun x => x.team_id == m.team_id &&
          x.status == MemStatus.active && x.user_id != caller) ≠ [] ∧
        s'.teams = s.teams.map (fun t =>
          if t.id == m.team_id then { t with member_count := t.member_count - 1 }
          else t))) := by
  unfold leave_team at h
  split at h
  · exact Except.noConfusion h
  · rename_i m hfind
    split_ifs at h with h1 h2
    · injection h with h
      subst h
      exact ⟨m, hfind, h1, rfl, Or.inl ⟨h2, rfl⟩⟩
    · injection h with h
      subst h
      exact ⟨m, hfind, h1, rfl, Or.inr ⟨h2, rfl⟩⟩

/-- Helper: `leave_team` preserves the team-store invariant. -/
theorem leave_team_preserves (caller : String) (s s' : TeamState)
    (h : leave_team caller s = .ok s') (hinv : teamStateInvariant s) :
    teamStateInvariant s' := by
  obtain ⟨m, hfind, hguard, hmem, hteams⟩ := leave_team_ok_shape caller s s' h
  have hmprops := List.find?_some hfind
  have hmmem := List.mem_of_find?_eq_some hfind
  simp only [Bool.and_eq_true, beq_iff_eq] at hmprops
  have hkeep : ∀ x ∈ s.memberships, (x.user_id ≠ caller ∨ x.team_id ≠ m.team_id) →
      x ∈ s'.memberships := by
    intro x hx hcond
    rw [hmem]
    refine List.mem_filter.mpr ⟨hx, ?_⟩
    rcases hcond with hc | hc <;> simp [hc]
  refine ⟨?_, ?_⟩
  · intro t ht
    rcases hteams with ⟨hempty, hteq⟩ | ⟨hne, hteq⟩
    · rw [hteq] at ht
      have ht' := List.mem_of_mem_filter ht
      have htid : t.id ≠ m.team_id := by
        have hb := (List.mem_filter.mp ht).2
        simpa using hb
      obtain ⟨a, ha, hp1, hp2, hp3⟩ := hinv.1 t ht'
      exact ⟨a, hkeep a ha (Or.inr (by rw [hp1]; exact htid)), hp1, hp2, hp3⟩
    · rw [hteq] at ht
      obtain ⟨t₀, ht₀, rfl⟩ := List.mem_map.mp ht
      by_cases hid : t₀.id = m.team_id
      · have hcases : ¬m.role = TeamRole.admin ∨
            (s.memberships.filter (fun x => x.team_id == m.team_id &&
              x.status == MemStatus.active && x.user_id != caller)).filter
              (fun x => x.role == TeamRole.admin) ≠ [] := by
          by_cases hr : m.role = TeamRole.admin
          · exact Or.inr (fun hnil => hguard ⟨hr, hnil, hne⟩)
          · exact Or.inl hr
        rcases hcases with hr | hadm
        · obtain ⟨a, ha, hp1, hp2, hp3⟩ := hinv.1 t₀ ht₀
          have hane : a.user_id ≠ caller := by
            intro hac
            have haem : a = m :=
              hinv.2 a ha m hmmem hp2 hmprops.2 (hac.trans hmprops.1.symm)
            rw [haem] at hp3
            exact hr hp3
          refine ⟨a, hkeep a ha (Or.inl hane), ?_, hp2, hp3⟩
          simp [hid, hp1]
        · obtain ⟨a, ha⟩ := List.exists_mem_of_ne_nil _ hadm
          have ha' := List.mem_filter.mp ha
          have haOA := List.mem_filter.mp ha'.1
          have hrole : a.role = TeamRole.admin := by simpa using ha'.2
          have hprops : a.team_id = m.team_id ∧ a.status = MemStatus.active ∧
              a.user_id ≠ caller := by simpa [and_assoc] using haOA.2
          refine ⟨a, hkeep a haOA.1 (Or.inl hprops.2.2), ?_, hprops.2.1, hrole⟩
          simp [hid, hprops.1]
      · obtain ⟨a, ha, hp1, hp2, hp3⟩ := hinv.1 t₀ ht₀
        refine ⟨a, hkeep a ha (Or.inr (by rw [hp1]; exact hid)), ?_, hp2, hp3⟩
        simp [hid, hp1]
  · intro m₁ hm₁ m₂ hm₂ ha₁ ha₂ hu
    rw [hmem] at hm₁ hm₂
    exact hinv.2 m₁ (List.mem_of_mem_filter hm₁) m₂ (List.mem_of_mem_filter hm₂)
      ha₁ ha₂ hu

/-- Helper: every state reachable by the team-lifecycle operations satisfies
the team-store invariant. -/
theorem reachable_teamStateInvariant (s : TeamState) (h : ReachableTeamState s) :
    teamStateInvariant s := by
  induction h with
  | init =>
      constructor
      · intro t ht
        simp [initialTeamState] at ht
      · intro m₁ hm₁
        simp [initialTeamState] at hm₁
  | step op hr happ ih =>
      rename_i s₀ s₁
      cases op with
      | create caller tid tname =>
          exact create_team_preserves caller tid tname s₀ s₁ happ ih
      | invite caller code mu exp =>
          exact create_invite_preserves caller code mu exp s₀ s₁ happ ih
      | join now caller code =>
          simp only [applyOp] at happ
          cases hj : join_team now caller code s₀ with
          | error e =>
              rw [hj] at happ
              exact absurd happ (by simp [Except.toOption])
          | ok s₂ =>
              rw [hj] at happ
              simp only [Except.toOption] at happ
              injection happ with happ
              subst happ
              exact join_team_preserves now caller code s₀ _ hj ih
      | leave caller =>
          simp only [applyOp] at happ
          cases hj : leave_team caller s₀ with
          | error e =>
              rw [hj] at happ
              exact absurd happ (by simp [Except.toOption])
          | ok s₂ =>
              rw [hj] at happ
              simp only [Except.toOption] at happ
              injection happ with happ
              subst happ
              exact leave_team_preserves caller s₀ _ hj ih

/-- Claim C6: `leave_team` is denied when the caller is the sole remaining
admin of a team that still has other active members; it succeeds for a
non-sole admin, the other admin remaining on file; and in every state
reachable by the team-lifecycle operations, no team has zero admins while
non-admin members remain. -/
theorem C6_leave_team_last_admin_guard (s : TeamState) (caller : String)
    (m₀ x : TeamMembership) :
    (m₀ ∈ s.memberships → m₀.user_id = caller → m₀.status = MemStatus.active →
      m₀.role = TeamRole.admin → uniqueActive s.memberships →
      (∀ y ∈ s.memberships, y.team_id = m₀.team_id → y.status = MemStatus.active →
        y.user_id ≠ caller → y.role ≠ TeamRole.admin) →
      (∃ y ∈ s.memberships, y.team_id = m₀.team_id ∧ y.status = MemStatus.active ∧
        y.user_id ≠ caller) →
      leave_team caller s = .error .last_admin) ∧
    (m₀ ∈ s.memberships → m₀.user_id = caller → m₀.status = MemStatus.active →
      m₀.role = TeamRole.admin → uniqueActive s.memberships →
      x ∈ s.memberships → x.team_id = m₀.team_id → x.status = MemStatus.active →
      x.user_id ≠ caller → x.role = TeamRole.admin →
      ∃ s', leave_team caller s = .ok s' ∧ x ∈ s'.memberships) ∧
    (∀ s₁, ReachableTeamState s₁ → ∀ t ∈ s₁.teams,
      (∃ nm ∈ s₁.memberships, nm.team_id = t.id ∧ nm.status = MemStatus.active ∧
        nm.role = TeamRole.member) →
      ∃ a ∈ s₁.memberships, a.team_id = t.id ∧ a.status = MemStatus.active ∧
        a.role = TeamRole.admin) := by
  refine ⟨?_, ?_, ?_⟩
  · intro hm₀ hu hs hr huniq hnoadm hother
    have hfind := find_active_eq s.memberships m₀ caller hm₀ hu hs huniq
    have hnil : (s.memberships.filter (fun y => y.team_id == m₀.team_id &&
        y.status == MemStatus.active && y.user_id != caller)).filter
        (fun y => y.role == TeamRole.admin) = [] := by
      rw [List.filter_eq_nil_iff]
      intro y hy
      have hy' := List.mem_filter.mp hy
      have hp : y.team_id = m₀.team_id ∧ y.status = MemStatus.active ∧
          y.user_id ≠ caller := by simpa [and_assoc] using hy'.2
      simpa using hnoadm y hy'.1 hp.1 hp.2.1 hp.2.2
    have hne : s.memberships.filter (fun y => y.team_id == m₀.team_id &&
        y.status == MemStatus.active && y.user_id != caller) ≠ [] := by
      obtain ⟨y, hy, hp1, hp2, hp3⟩ := hother
      exact List.ne_nil_of_mem (List.mem_filter.mpr ⟨hy, by simp [hp1, hp2, hp3]⟩)
    simp only [leave_team, hfind]
    rw [if_pos ⟨hr, hnil, hne⟩]
  · intro hm₀ hu hs hr huniq hx hxt hxs hxu hxr
    have hfind := find_active_eq s.memberships m₀ caller hm₀ hu hs huniq
    have hxOA : x ∈ s.memberships.filter (fun y => y.team_id == m₀.team_id &&
        y.status == MemStatus.active && y.user_id != caller) :=
      List.mem_filter.mpr ⟨hx, by simp [hxt, hxs, hxu]⟩
    have hne : s.memberships.filter (fun y => y.team_id == m₀.team_id &&
        y.status == MemStatus.active && y.user_id != caller) ≠ [] :=
      List.ne_nil_of_mem hxOA
    have hnadm : (s.memberships.filter (fun y => y.team_id == m₀.team_id &&
        y.status == MemStatus.active && y.user_id != caller)).filter
        (fun y => y.role == TeamRole.admin) ≠ [] :=
      List.ne_nil_of_mem (List.mem_filter.mpr ⟨hxOA, by simp [hxr]⟩)
    simp only [leave_team, hfind]
    rw [if_neg (fun hcon => hnadm hcon.2.1), if_neg hne]
    refine ⟨_, rfl, ?_⟩
    exact List.mem_filter.mpr ⟨hx, by simp [hxu]⟩
  · intro s₁ hreach t ht hnm
    exact (reachable_teamStateInvariant s₁ hreach).1 t ht

/-- Witness for C6: alice, sole admin of T1 with member bob, is denied
leaving; with a second admin carol present she may leave; and in the state
reached by create-invite-join the team provably retains an active admin. -/
theorem C6_leave_team_last_admin_guard_witness :
    leave_team "alice"
        ⟨[⟨"T1", "Finance", "alice", 2⟩],
         [⟨"T1", "alice", .admin, .active, none⟩,
          ⟨"T1", "bob", .member, .active, some "alice"⟩], []⟩ = .error .last_admin ∧
    (leave_team "alice"
        ⟨[⟨"T1", "Finance", "alice", 3⟩],
         [⟨"T1", "alice", .admin, .active, none⟩,
          ⟨"T1", "carol", .admin, .active, some "alice"⟩,
          ⟨"T1", "bob", .member, .active, some "alice"⟩], []⟩).toOption.isSome = true ∧
    (TeamState.memberships
        ⟨[⟨"T1", "Finance", "alice", 2⟩],
         [⟨"T1", "alice", .admin, .active, none⟩,
          ⟨"T1", "bob", .member, .active, some "alice"⟩],
         [⟨"inv1", "T1", "alice", none, 1, 1, true⟩]⟩).any
      (fun a => a.team_id == "T1" && a.status == MemStatus.active &&
        a.role == TeamRole.admin) = true := by
  refine ⟨?_, ?_, ?_⟩
  · exact (C6_leave_team_last_admin_guard _ "alice"
      ⟨"T1", "alice", .admin, .active, none⟩ ⟨"T1", "alice", .admin, .active, none⟩).1
      (by decide) rfl rfl rfl (by decide) (by decide)
      ⟨⟨"T1", "bob", .member, .active, some "alice"⟩, by decide, rfl, rfl, by decide⟩
  · obtain ⟨s', hok, -⟩ := (C6_leave_team_last_admin_guard
      ⟨[⟨"T1", "Finance", "alice", 3⟩],
       [⟨"T1", "alice", .admin, .active, none⟩,
        ⟨"T1", "carol", .admin, .active, some "alice"⟩,
        ⟨"T1", "bob", .member, .active, some "alice"⟩], []⟩ "alice"
      ⟨"T1", "alice", .admin, .active, none⟩
      ⟨"T1", "carol", .admin, .active, some "alice"⟩).2.1
      (by decide) rfl rfl rfl (by decide) (by decide) rfl rfl (by decide) rfl
    rw [hok]
    rfl
  · have hreach : ReachableTeamState
        ⟨[⟨"T1", "Finance", "alice", 2⟩],
         [⟨"T1", "alice", .admin, .active, none⟩,
          ⟨"T1", "bob", .member, .active, some "alice"⟩],
         [⟨"inv1", "T1", "alice", none, 1, 1, true⟩]⟩ :=
      .step (.join 0 "bob" "inv1")
        (.step (.invite "alice" "inv1" 1 none)
          (.step (.create "alice" "T1" "Finance") .init rfl) rfl) rfl
    obtain ⟨a, ha, h1, h2, h3⟩ := (C6_leave_team_last_admin_guard
        initialTeamState "alice"
        ⟨"T1", "alice", .admin, .active, none⟩
        ⟨"T1", "alice", .admin, .active, none⟩).2.2 _ hreach
      ⟨"T1", "Finance", "alice", 2⟩ (by decide)
      ⟨⟨"T1", "bob", .member, .active, some "alice"⟩, by decide, rfl, rfl, rfl⟩
    exact List.any_eq_true.mpr ⟨a, ha, by simp [h1, h2, h3]⟩

/-- Helper: `takeWhile` over a list whose front wholly satisfies the
predicate and is followed by a failing element returns exactly that front. -/
theorem takeWhile_append_stop (pr : Char → Bool) (l₁ l₂ : List Char) (x : Char)
    (h₁ : ∀ a ∈ l₁, pr a = true) (hx : pr x = false) :
    (l₁ ++ x :: l₂).takeWhile pr = l₁ := by
  induction l₁ with
  | nil => simp [List.takeWhile_cons, hx]
  | cons a as ih =>
      simp [List.takeWhile_cons, h₁ a (by simp),
        ih (fun b hb => h₁ b (by simp [hb]))]

/-- Helper: taking the length of the `takeWhile` front recovers it. -/
theorem take_takeWhile_length (pr : Char → Bool) (l : List Char) :
    l.take (l.takeWhile pr).length = l.takeWhile pr := by
  induction l with
  | nil => rfl
  | cons a as ih =>
      by_cases h : pr a = true
      · simp [List.takeWhile_cons, h, ih]
      · simp [List.takeWhile_cons, h]

/-- Helper: the invite-URL pattern matches a string ending in
`/join/<segment>` and captures the slash-free nonempty segment. -/
theorem matchJoinUrl_of_suffix (p seg : String) (hne : seg ≠ "")
    (hns : ∀ c ∈ seg.data, c ≠ '/') :
    matchJoinUrl (p ++ "/join/" ++ seg) = some seg := by
  unfold matchJoinUrl
  have hdata : (p ++ "/join/" ++ seg).data.reverse
      = seg.data.reverse ++ '/' :: 'n' :: 'i' :: 'o' :: 'j' :: '/' :: p.data.reverse := by
    simp [String.data_append]
  rw [hdata]
  have htw : (seg.data.reverse ++
      '/' :: 'n' :: 'i' :: 'o' :: 'j' :: '/' :: p.data.reverse).takeWhile
      (fun c => decide (c ≠ '/')) = seg.data.reverse := by
    refine takeWhile_append_stop _ _ _ _ ?_ (by simp)
    intro a ha
    exact decide_eq_true (hns a (List.mem_reverse.mp ha))
  rw [htw]
  have hsegne : seg.data.reverse ≠ [] := by
    intro hcon
    exact hne (congrArg String.mk (by simpa using congrArg List.reverse hcon))
  rw [if_neg hsegne]
  rw [List.drop_left' (rfl : seg.data.reverse.length = seg.data.reverse.length)]
  rw [show ('/' :: 'n' :: 'i' :: 'o' :: 'j' :: '/' :: p.data.reverse).take 6
      = ['/', 'n', 'i', 'o', 'j', '/'] from
    @List.take_left' Char ['/', 'n', 'i', 'o', 'j', '/'] p.data.reverse 6 rfl]
  rw [if_pos rfl]
  simp

/-- Helper: a successful invite-URL match decomposes the string as
`p ++ "/join/" ++ code` with a nonempty slash-free code. -/
theorem matchJoinUrl_some (t code : String) (h : matchJoinUrl t = some code) :
    ∃ p : String, t = p ++ "/join/" ++ code ∧ code ≠ "" ∧
      ∀ c ∈ code.data, c ≠ '/' := by
  unfold matchJoinUrl at h
  split_ifs at h with h1 h2
  injection h with h
  subst h
  have hsplit1 : t.data.reverse.takeWhile (fun c => decide (c ≠ '/'))
      ++ t.data.reverse.drop
        (t.data.reverse.takeWhile (fun c => decide (c ≠ '/'))).length
      = t.data.reverse := by
    conv_rhs => rw [← List.take_append_drop
      (t.data.reverse.takeWhile (fun c => decide (c ≠ '/'))).length t.data.reverse]
    rw [take_takeWhile_length]
  have hsplit2 : t.data.reverse.drop
      (t.data.reverse.takeWhile (fun c => decide (c ≠ '/'))).length
      = ['/', 'n', 'i', 'o', 'j', '/']
        ++ (t.data.reverse.drop
          (t.data.reverse.takeWhile (fun c => decide (c ≠ '/'))).length).drop 6 := by
    conv_lhs => rw [← List.take_append_drop 6 (t.data.reverse.drop
      (t.data.reverse.takeWhile (fun c => decide (c ≠ '/'))).length)]
    rw [h2]
  have hdata : t.data = (((t.data.reverse.drop
        (t.data.reverse.takeWhile (fun c => decide (c ≠ '/'))).length).drop 6).reverse
      ++ ('/' :: 'j' :: 'o' :: 'i' :: 'n' :: '/' :: []))
      ++ (t.data.reverse.takeWhile (fun c => decide (c ≠ '/'))).reverse := by
    have h3 : t.data.reverse
        = t.data.reverse.takeWhile (fun c => decide (c ≠ '/'))
          ++ (['/', 'n', 'i', 'o', 'j', '/']
            ++ (t.data.reverse.drop
              (t.data.reverse.takeWhile (fun c => decide (c ≠ '/'))).length).drop 6) := by
      rw [← hsplit2, hsplit1]
    have h4 := congrArg List.reverse h3
    rw [List.reverse_reverse] at h4
    conv_lhs => rw [h4]
    simp [List.reverse_append]
  refine ⟨String.mk ((t.data.reverse.drop
      (t.data.reverse.takeWhile (fun c => decide (c ≠ '/'))).length).drop 6).reverse,
    ?_, ?_, ?_⟩
  · exact congrArg String.mk hdata
  · intro hcon
    have hd : (t.data.reverse.takeWhile (fun c => decide (c ≠ '/'))).reverse
        = ([] : List Char) := congrArg String.data hcon
    exact h1 (by simpa using congrArg List.reverse hd)
  · intro c hc
    have hc' : c ∈ t.data.reverse.takeWhile (fun c => decide (c ≠ '/')) :=
      List.mem_reverse.mp hc
    have hp := List.mem_takeWhile_imp hc'
    exact of_decide_eq_true hp

/-- Claim C9: for the team page's join form, a blank input triggers no
joinTeam call; a non-blank input whose trimmed form ends in a URL path
`/join/<segment>` submits that trailing segment, and any other non-blank
input submits the trimmed input itself — so pasting the full invite URL and
pasting the bare code submit the same code. -/
theorem C9_handleJoinTeam_code (input p seg : String) :
    (trimStr input = "" → handleJoinTeamCode input = none) ∧
    (trimStr input = p ++ "/join/" ++ seg → seg ≠ "" → (∀ c ∈ seg.data, c ≠ '/') →
      handleJoinTeamCode input = some seg) ∧
    (trimStr input ≠ "" →
      (¬ ∃ q r : String, trimStr input = q ++ "/join/" ++ r ∧ r ≠ "" ∧
        ∀ c ∈ r.data, c ≠ '/') →
      handleJoinTeamCode input = some (trimStr input)) := by
  refine ⟨?_, ?_, ?_⟩
  · intro h
    simp [handleJoinTeamCode, h]
  · intro heq hne hns
    have hmatch := matchJoinUrl_of_suffix p seg hne hns
    have htne : trimStr input ≠ "" := by
      rw [heq]
      intro hcon
      have hd := congrArg String.data hcon
      simp [String.data_append] at hd
    unfold handleJoinTeamCode
    rw [if_neg htne, heq, hmatch]
  · intro hne hno
    cases hmj : matchJoinUrl (trimStr input) with
    | none => simp [handleJoinTeamCode, hne, hmj]
    | some code =>
        obtain ⟨q, hq, hc, hs⟩ := matchJoinUrl_some _ _ hmj
        exact absurd ⟨q, code, hq, hc, hs⟩ hno

/-- Witness for C9: pasting the full invite URL and pasting the bare code
both submit `abc123`, and a whitespace-only input submits nothing. -/
theorem C9_handleJoinTeam_code_witness :
    handleJoinTeamCode "  https://catefolio.app/join/abc123  " = some "abc123" ∧
    handleJoinTeamCode "abc123" = some "abc123" ∧
    handleJoinTeamCode "   " = none := by
  refine ⟨?_, ?_, ?_⟩
  · exact (C9_handleJoinTeam_code "  https://catefolio.app/join/abc123  "
      "https://catefolio.app" "abc123").2.1 (by decide) (by decide) (by decide)
  · refine (C9_handleJoinTeam_code "abc123" "" "").2.2 (by decide) ?_
    rintro ⟨q, r, hq, hc, -⟩
    have hlen := congrArg (fun s : String => s.data.length) hq
    have hlhs : (trimStr "abc123").data.length = 6 := rfl
    simp only [String.data_append, List.length_append, hlhs, List.length_cons,
      List.length_nil] at hlen
    have hrne : r.data.length ≠ 0 := fun h0 =>
      hc (congrArg String.mk (List.length_eq_zero.mp h0))
    have hjn : ("/join/" : String).data.length = 6 := rfl
    omega
  · exact (C9_handleJoinTeam_code "   " "" "").1 (by decide)

/-- Helper: `find?` over a filter whose predicate is implied by the search
predicate finds the same first match. -/
theorem find_filter_of_imp (p q : (String × String) → Bool)
    (l : List (String × String)) (h : ∀ x, p x = true → q x = true) :
    (l.filter q).find? p = l.find? p := by
  induction l with
  | nil => rfl
  | cons a as ih =>
      by_cases hq : q a = true
      · rw [List.filter_cons_of_pos hq]
        by_cases hp : p a = true
        · rw [List.find?_cons_of_pos _ hp, List.find?_cons_of_pos _ hp]
        · rw [List.find?_cons_of_neg _ (by simpa using hp),
            List.find?_cons_of_neg _ (by simpa using hp)]
          exact ih
      · have hp : ¬p a = true := fun hpa => hq (h a hpa)
        rw [List.filter_cons_of_neg (by simpa using hq), ih,
          List.find?_cons_of_neg _ (by simpa using hp)]

/-- Helper: after `setHeader`, reading the same (case-insensitive) header
name yields the new value. -/
theorem getHeader_setHeader_same (hs : List (String × String)) (k v : String) :
    getHeader (setHeader hs k v) k = some v := by
  unfold getHeader setHeader
  rw [List.find?_append]
  have hnone : (hs.filter (fun p => lowerName p.1 != lowerName k)).find?
      (fun p => lowerName p.1 == lowerName k) = none := by
    rw [List.find?_eq_none]
    intro x hx
    have hq := (List.mem_filter.mp hx).2
    simp only [bne_iff_ne, ne_eq] at hq
    simp [hq]
  rw [hnone]
  simp

/-- Helper: after `setHeader`, any differently named header reads as
before. -/
theorem getHeader_setHeader_other (hs : List (String × String)) (k v k' : String)
    (hne : lowerName k' ≠ lowerName k) :
    getHeader (setHeader hs k v) k' = getHeader hs k' := by
  unfold getHeader setHeader
  rw [List.find?_append]
  rw [find_filter_of_imp (fun p => lowerName p.1 == lowerName k')
    (fun p => lowerName p.1 != lowerName k) hs ?_]
  · cases hf : hs.find? (fun p => lowerName p.1 == lowerName k') with
    | some x => simp
    | none => simp [Ne.symm hne]
  · intro x hpx
    simp only [beq_iff_eq] at hpx
    simp [hpx, hne]

/-- Counterexample for claim C10 as stated: a `getToken` that resolves to
the non-null empty string makes the authenticated-mode fetch throw
`Not authenticated` — the code tests JS falsiness (`!token`), not only
null — instead of sending a request with a Bearer header. -/
theorem C10_createApiFetch_counterexample :
    ApiConfig.getToken
      { mode := .authenticated, getToken := some (some ""), demoUserId := none }
      = some (some "") ∧
    createApiFetch
      { mode := .authenticated, getToken := some (some ""), demoUserId := none }
      "https://api/upload" {} = .error "Not authenticated" :=
  ⟨rfl, rfl⟩

/-- Claim C10 (amended): in authenticated mode with a `getToken` callback,
the fetch throws `Not authenticated` without issuing a request whenever the
token resolves to null or to the empty string, and for a nonempty token
sends the request with the `Authorization: Bearer <token>` header; in demo
mode a nonempty configured demo user id is sent as `X-Demo-User-Id`; in all
cases the url, method, body and all other caller-supplied headers are
preserved. -/
theorem C10_createApiFetch_modes (config : ApiConfig) (url : String)
    (options : RequestOptions) (t d : String) :
    (config.mode = .authenticated → config.getToken = some none →
      createApiFetch config url options = .error "Not authenticated") ∧
    (config.mode = .authenticated → config.getToken = some (some "") →
      createApiFetch config url options = .error "Not authenticated") ∧
    (config.mode = .authenticated → config.getToken = some (some t) → t ≠ "" →
      createApiFetch config url options = .ok ⟨url, { options with
        headers := setHeader options.headers "Authorization" ("Bearer " ++ t) }⟩) ∧
    (config.mode = .demo → config.demoUserId = some d → d ≠ "" →
      createApiFetch config url options = .ok ⟨url, { options with
        headers := setHeader options.headers "X-Demo-User-Id" d }⟩) ∧
    (∀ hs : List (String × String), ∀ k v k' : String,
      getHeader (setHeader hs k v) k = some v ∧
      (lowerName k' ≠ lowerName k → getHeader (setHeader hs k v) k' = getHeader hs k')) := by
  obtain ⟨mode, gt, du⟩ := config
  refine ⟨?_, ?_, ?_, ?_, ?_⟩
  · intro hm hg
    simp only at hm hg
    subst hm
    subst hg
    rfl
  · intro hm hg
    simp only at hm hg
    subst hm
    subst hg
    rfl
  · intro hm hg ht
    simp only at hm hg
    subst hm
    subst hg
    simp [createApiFetch, ht]
  · intro hm hd hdne
    simp only at hm hd
    subst hm
    subst hd
    simp [createApiFetch, hdne]
  · intro hs k v k'
    exact ⟨getHeader_setHeader_same hs k v,
      fun hne => getHeader_setHeader_other hs k v k' hne⟩

/-- Witness for C10 (amended): a null token throws; the token `tok123` is
sent as a Bearer header; demo mode sends the demo user id header; and the
caller's `Accept` header survives the Authorization set. -/
theorem C10_createApiFetch_modes_witness :
    createApiFetch
        { mode := .authenticated, getToken := some none, demoUserId := none }
        "https://api/jobs" { method := some "GET" } = .error "Not authenticated" ∧
    createApiFetch
        { mode := .authenticated, getToken := some (some "tok123"), demoUserId := none }
        "https://api/jobs"
        { method := some "GET", headers := [("Accept", "application/json")] }
      = .ok ⟨"https://api/jobs",
          { method := some "GET",
            headers := setHeader [("Accept", "application/json")]
              "Authorization" ("Bearer " ++ "tok123") }⟩ ∧
    createApiFetch
        { mode := .demo, getToken := none, demoUserId := some "session_1" }
        "https://api/jobs" {}
      = .ok ⟨"https://api/jobs",
          { headers := setHeader [] "X-Demo-User-Id" "session_1" }⟩ ∧
    getHeader (setHeader [("Accept", "application/json")]
        "Authorization" ("Bearer " ++ "tok123")) "Accept" = some "application/json" := by
  refine ⟨?_, ?_, ?_, ?_⟩
  · exact (C10_createApiFetch_modes
      { mode := .authenticated, getToken := some none, demoUserId := none }
      "https://api/jobs" { method := some "GET" } "tok123" "session_1").1 rfl rfl
  · exact (C10_createApiFetch_modes
      { mode := .authenticated, getToken := some (some "tok123"), demoUserId := none }
      "https://api/jobs"
      { method := some "GET", headers := [("Accept", "application/json")] }
      "tok123" "session_1").2.2.1 rfl rfl (by decide)
  · exact (C10_createApiFetch_modes
      { mode := .demo, getToken := none, demoUserId := some "session_1" }
      "https://api/jobs" {} "tok123" "session_1").2.2.2.1 rfl rfl (by decide)
  · have h := ((C10_createApiFetch_modes
      { mode := .demo, getToken := none, demoUserId := some "session_1" }
      "https://api/jobs" {} "tok123" "session_1").2.2.2.2
      [("Accept", "application/json")] "Authorization" ("Bearer " ++ "tok123")
      "Accept").2 (by decide)
    rw [h]
    rfl
